import Mathlib

/-!
Verification of the NetworkManager membership-registry contracts of the
XDC-SubnetFoundry repository.

Two variants of the contract exist in the sources and are embedded here:

* `NMOwn` — the Ownable-based contract (`contracts/contracts/NetworkManager.sol`):
  record store `members`, reverse index `memberIndex`, enumeration array
  `memberAddresses`, swap-with-last O(1) removal.
* `NMMgr` — the manager-based contract variant: explicit `manager` authority,
  linear-search removal, `transferManagerRole`, `updateSubnetMemberDetail`,
  `memberCount` counter.

Addresses are modelled as natural numbers with `0` standing for the zero
address (the absence sentinel).  Timestamps (`block.timestamp`) are an input
of every mutating call.  A reverting call returns an error and, per EVM revert
semantics, leaves the state unchanged and emits no events; Solidity 0.8
checked-arithmetic / bounds panics are modelled by the `Panic` error kind.
-/

namespace SubnetRegistry

/-- Error kinds surfaced by the registry: failed require-style preconditions
plus the arithmetic/bounds panic of Solidity 0.8. -/
inductive Err where
  | Unauthorized
  | AlreadyExists
  | NotFound
  | InvalidTarget
  | Panic
deriving DecidableEq, Repr

/-- Audit events emitted by the contracts. -/
inductive Event where
  | MemberAdded (memberAddress : Nat) (x500Name : String)
  | MemberRemoved (memberAddress : Nat)
  | MemberUpdated (memberAddress : Nat)
  | ManagerChanged (oldManager : Nat) (newManager : Nat)
deriving DecidableEq, Repr

/-- Events actually observable from a call outcome: a reverted call emits
nothing. -/
def eventsOf {σ : Type} : Except Err (σ × List Event) → List Event
  | .ok (_, evs) => evs
  | .error _ => []

namespace NMOwn

/-- NodeMember struct of the Ownable contract variant. -/
structure NodeMember where
  x500Name : String
  memberAddress : Nat
  publicKey : List Nat
  isActive : Bool
  joinedAt : Nat
  lastUpdated : Nat
  serial : Nat
  platformVersion : Nat
  host : String
  port : Nat
deriving DecidableEq, Repr

/-- Default value of a mapping slot: the all-zero NodeMember. -/
def emptyMember : NodeMember := ⟨"", 0, [], false, 0, 0, 0, 0, "", 0⟩

/-- Contract storage: Ownable owner, `members` mapping, `memberIndex` reverse
map, `memberAddresses` enumeration array. -/
structure State where
  owner : Nat
  members : Nat → NodeMember
  memberIndex : Nat → Nat
  memberAddresses : List Nat

/-- Constructor state: deployer becomes owner, all mappings empty. -/
def init (deployer : Nat) : State := ⟨deployer, fun _ => emptyMember, fun _ => 0, []⟩

/-- Presence test used everywhere: stored record has a nonzero address field. -/
def isMember (s : State) (a : Nat) : Bool := (s.members a).memberAddress != 0

/-- Enumeration query returning the raw array. -/
def getAllMembers (s : State) : List Nat := s.memberAddresses

/-- Lookup guarded by the memberExists modifier. -/
def getMember (s : State) (a : Nat) : Except Err NodeMember :=
  if (s.members a).memberAddress ≠ 0 then .ok (s.members a)
  else .error .NotFound

/-- addMember of the Ownable contract: onlyOwner, memberDoesNotExist, store
the new record, record its index, push to the array, emit MemberAdded. -/
def addMember (s : State) (caller now memberAddress : Nat) (x500Name : String)
    (publicKey : List Nat) (serial platformVersion : Nat) (host : String) (port : Nat) :
    Except Err (State × List Event) :=
  if caller = s.owner then
    if (s.members memberAddress).memberAddress = 0 then
      let newMember : NodeMember :=
        ⟨x500Name, memberAddress, publicKey, true, now, now, serial, platformVersion, host, port⟩
      .ok (⟨s.owner,
            fun a => if a = memberAddress then newMember else s.members a,
            fun a => if a = memberAddress then s.memberAddresses.length else s.memberIndex a,
            s.memberAddresses ++ [memberAddress]⟩,
        [Event.MemberAdded memberAddress x500Name])
    else .error .AlreadyExists
  else .error .Unauthorized

/-- removeMember of the Ownable contract: onlyOwner, memberExists, swap the
last array entry into the removed slot, retarget its reverse-map entry, pop,
delete both mapping entries, emit MemberRemoved.  Reading the last entry of an
empty array, or writing past the end, panics. -/
def removeMember (s : State) (caller memberAddress : Nat) :
    Except Err (State × List Event) :=
  if caller = s.owner then
    if (s.members memberAddress).memberAddress ≠ 0 then
      if s.memberAddresses.length = 0 then .error .Panic
      else
        let index := s.memberIndex memberAddress
        let lastMember := (s.memberAddresses[s.memberAddresses.length - 1]?).getD 0
        if index < s.memberAddresses.length then
          .ok (⟨s.owner,
                fun a => if a = memberAddress then emptyMember else s.members a,
                fun a => if a = memberAddress then 0
                         else if a = lastMember then index else s.memberIndex a,
                (s.memberAddresses.set index lastMember).dropLast⟩,
            [Event.MemberRemoved memberAddress])
        else .error .Panic
    else .error .NotFound
  else .error .Unauthorized

/-- updateMemberStatus: onlyOwner, memberExists, set isActive, refresh
lastUpdated, emit MemberUpdated. -/
def updateMemberStatus (s : State) (caller now memberAddress : Nat) (isActive : Bool) :
    Except Err (State × List Event) :=
  if caller = s.owner then
    if (s.members memberAddress).memberAddress ≠ 0 then
      .ok (⟨s.owner,
            fun a => if a = memberAddress then
                { s.members memberAddress with isActive := isActive, lastUpdated := now }
              else s.members a,
            s.memberIndex, s.memberAddresses⟩,
        [Event.MemberUpdated memberAddress])
    else .error .NotFound
  else .error .Unauthorized

/-- updateMemberDetails: onlyOwner, memberExists, overwrite the six supplied
fields, refresh lastUpdated, emit MemberUpdated. -/
def updateMemberDetails (s : State) (caller now memberAddress : Nat) (x500Name : String)
    (publicKey : List Nat) (serial platformVersion : Nat) (host : String) (port : Nat) :
    Except Err (State × List Event) :=
  if caller = s.owner then
    if (s.members memberAddress).memberAddress ≠ 0 then
      .ok (⟨s.owner,
            fun a => if a = memberAddress then
                { s.members memberAddress with
                  x500Name := x500Name, publicKey := publicKey, serial := serial,
                  platformVersion := platformVersion, host := host, port := port,
                  lastUpdated := now }
              else s.members a,
            s.memberIndex, s.memberAddresses⟩,
        [Event.MemberUpdated memberAddress])
    else .error .NotFound
  else .error .Unauthorized

/-- Mutating operations of the Ownable contract, each carrying its caller and,
where the body reads block.timestamp, the call time. -/
inductive Op where
  | addMember (caller now memberAddress : Nat) (x500Name : String) (publicKey : List Nat)
      (serial platformVersion : Nat) (host : String) (port : Nat)
  | removeMember (caller memberAddress : Nat)
  | updateMemberStatus (caller now memberAddress : Nat) (isActive : Bool)
  | updateMemberDetails (caller now memberAddress : Nat) (x500Name : String) (publicKey : List Nat)
      (serial platformVersion : Nat) (host : String) (port : Nat)

/-- Dispatch an operation. -/
def exec (s : State) : Op → Except Err (State × List Event)
  | .addMember caller now a name pk serial pv host port =>
      addMember s caller now a name pk serial pv host port
  | .removeMember caller a => removeMember s caller a
  | .updateMemberStatus caller now a active => updateMemberStatus s caller now a active
  | .updateMemberDetails caller now a name pk serial pv host port =>
      updateMemberDetails s caller now a name pk serial pv host port

/-- Transaction semantics: a reverting call leaves the state unchanged. -/
def step (s : State) (op : Op) : State :=
  match exec s op with
  | .ok (s1, _) => s1
  | .error _ => s

/-- Run a sequence of transactions. -/
def run (s : State) (ops : List Op) : State := ops.foldl step s

/-- States reachable from deployment by some sequence of facade calls. -/
def Reachable (s : State) : Prop := ∃ deployer ops, run (init deployer) ops = s

/-- An operation that never inserts the zero (sentinel) identity. -/
def Op.nonzeroAdd : Op → Prop
  | .addMember _ _ a _ _ _ _ _ _ => a ≠ 0
  | _ => True

/-- Index-consistency invariant of the dual structure. -/
def Inv (s : State) : Prop :=
  s.memberAddresses.Nodup ∧
  (∀ a, (s.members a).memberAddress ≠ 0 ↔ a ∈ s.memberAddresses) ∧
  (∀ a ∈ s.memberAddresses, (s.members a).memberAddress = a) ∧
  (∀ a ∈ s.memberAddresses, s.memberAddresses[s.memberIndex a]? = some a)

end NMOwn

namespace NMMgr

/-- Modulus of the uint256 memberCount counter. -/
def UINT256 : Nat := 2 ^ 256

/-- NodeMember struct of the manager-based contract variant (the address
field is named nodeAddress there). -/
structure NodeMember where
  x500Name : String
  nodeAddress : Nat
  publicKey : List Nat
  isActive : Bool
  joinedAt : Nat
  lastUpdated : Nat
  serial : Nat
  platformVersion : Nat
  host : String
  port : Nat
deriving DecidableEq, Repr

/-- Default value of a mapping slot: the all-zero NodeMember. -/
def emptyMember : NodeMember := ⟨"", 0, [], false, 0, 0, 0, 0, "", 0⟩

/-- Contract storage: manager address, members mapping, enumeration array and
the uint256 member counter. -/
structure State where
  manager : Nat
  members : Nat → NodeMember
  memberAddresses : List Nat
  memberCount : Nat

/-- Constructor state: deployer becomes manager. -/
def init (deployer : Nat) : State := ⟨deployer, fun _ => emptyMember, [], 0⟩

/-- Presence test: stored record has a nonzero address field. -/
def isMember (s : State) (a : Nat) : Bool := (s.members a).nodeAddress != 0

/-- Enumeration query returning the raw array. -/
def getAllMembers (s : State) : List Nat := s.memberAddresses

/-- Lookup guarded by the memberExists modifier. -/
def getMember (s : State) (a : Nat) : Except Err NodeMember :=
  if (s.members a).nodeAddress ≠ 0 then .ok (s.members a)
  else .error .NotFound

/-- addMember: onlyManager, memberDoesNotExist, store the record, push the
address, increment memberCount (uint256 wrap), emit MemberAdded. -/
def addMember (s : State) (caller now memberAddress : Nat) (x500Name : String)
    (publicKey : List Nat) (serial platformVersion : Nat) (host : String) (port : Nat) :
    Except Err (State × List Event) :=
  if caller = s.manager then
    if (s.members memberAddress).nodeAddress = 0 then
      let newMember : NodeMember :=
        ⟨x500Name, memberAddress, publicKey, true, now, now, serial, platformVersion, host, port⟩
      .ok (⟨s.manager,
            fun a => if a = memberAddress then newMember else s.members a,
            s.memberAddresses ++ [memberAddress],
            (s.memberCount + 1) % UINT256⟩,
        [Event.MemberAdded memberAddress x500Name])
    else .error .AlreadyExists
  else .error .Unauthorized

/-- removeMember: onlyManager, memberExists, linear scan for the first array
slot holding the address; when found, move the last entry into that slot, pop,
delete the mapping entry, decrement memberCount (a decrement at zero panics),
emit MemberRemoved; when not found, the body falls through and the call
succeeds silently with no effect and no event. -/
def removeMember (s : State) (caller memberAddress : Nat) :
    Except Err (State × List Event) :=
  if caller = s.manager then
    if (s.members memberAddress).nodeAddress ≠ 0 then
      match s.memberAddresses.findIdx? (fun a => a == memberAddress) with
      | some index =>
          let lastMember := (s.memberAddresses[s.memberAddresses.length - 1]?).getD 0
          if s.memberCount = 0 then .error .Panic
          else
            .ok (⟨s.manager,
                  fun a => if a = memberAddress then emptyMember else s.members a,
                  (s.memberAddresses.set index lastMember).dropLast,
                  s.memberCount - 1⟩,
              [Event.MemberRemoved memberAddress])
      | none => .ok (s, [])
    else .error .NotFound
  else .error .Unauthorized

/-- updateMemberStatus: onlyManager, memberExists, set isActive, refresh
lastUpdated, emit MemberUpdated. -/
def updateMemberStatus (s : State) (caller now memberAddress : Nat) (isActive : Bool) :
    Except Err (State × List Event) :=
  if caller = s.manager then
    if (s.members memberAddress).nodeAddress ≠ 0 then
      .ok (⟨s.manager,
            fun a => if a = memberAddress then
                { s.members memberAddress with isActive := isActive, lastUpdated := now }
              else s.members a,
            s.memberAddresses, s.memberCount⟩,
        [Event.MemberUpdated memberAddress])
    else .error .NotFound
  else .error .Unauthorized

/-- updateMemberDetails: onlyManager, memberExists, overwrite the six supplied
fields, refresh lastUpdated, emit MemberUpdated. -/
def updateMemberDetails (s : State) (caller now memberAddress : Nat) (x500Name : String)
    (publicKey : List Nat) (serial platformVersion : Nat) (host : String) (port : Nat) :
    Except Err (State × List Event) :=
  if caller = s.manager then
    if (s.members memberAddress).nodeAddress ≠ 0 then
      .ok (⟨s.manager,
            fun a => if a = memberAddress then
                { s.members memberAddress with
                  x500Name := x500Name, publicKey := publicKey, serial := serial,
                  platformVersion := platformVersion, host := host, port := port,
                  lastUpdated := now }
              else s.members a,
            s.memberAddresses, s.memberCount⟩,
        [Event.MemberUpdated memberAddress])
    else .error .NotFound
  else .error .Unauthorized

/-- updateSubnetMemberDetail: onlyManager, memberExists, overwrite only
serial, platformVersion, host and port, refresh lastUpdated, emit
MemberUpdated. -/
def updateSubnetMemberDetail (s : State) (caller now memberAddress serial platformVersion : Nat)
    (host : String) (port : Nat) : Except Err (State × List Event) :=
  if caller = s.manager then
    if (s.members memberAddress).nodeAddress ≠ 0 then
      .ok (⟨s.manager,
            fun a => if a = memberAddress then
                { s.members memberAddress with
                  serial := serial, platformVersion := platformVersion,
                  host := host, port := port, lastUpdated := now }
              else s.members a,
            s.memberAddresses, s.memberCount⟩,
        [Event.MemberUpdated memberAddress])
    else .error .NotFound
  else .error .Unauthorized

/-- transferManagerRole: onlyManager, reject the zero address, replace the
manager, emit ManagerChanged with the previous manager. -/
def transferManagerRole (s : State) (caller newManager : Nat) :
    Except Err (State × List Event) :=
  if caller = s.manager then
    if newManager ≠ 0 then
      .ok (⟨newManager, s.members, s.memberAddresses, s.memberCount⟩,
        [Event.ManagerChanged s.manager newManager])
    else .error .InvalidTarget
  else .error .Unauthorized

/-- Mutating operations of the manager-based contract. -/
inductive Op where
  | addMember (caller now memberAddress : Nat) (x500Name : String) (publicKey : List Nat)
      (serial platformVersion : Nat) (host : String) (port : Nat)
  | removeMember (caller memberAddress : Nat)
  | updateMemberStatus (caller now memberAddress : Nat) (isActive : Bool)
  | updateMemberDetails (caller now memberAddress : Nat) (x500Name : String) (publicKey : List Nat)
      (serial platformVersion : Nat) (host : String) (port : Nat)
  | updateSubnetMemberDetail (caller now memberAddress serial platformVersion : Nat)
      (host : String) (port : Nat)
  | transferManagerRole (caller newManager : Nat)

/-- Caller of an operation (msg.sender). -/
def Op.caller : Op → Nat
  | .addMember c _ _ _ _ _ _ _ _ => c
  | .removeMember c _ => c
  | .updateMemberStatus c _ _ _ => c
  | .updateMemberDetails c _ _ _ _ _ _ _ _ => c
  | .updateSubnetMemberDetail c _ _ _ _ _ _ => c
  | .transferManagerRole c _ => c

/-- Dispatch an operation. -/
def exec (s : State) : Op → Except Err (State × List Event)
  | .addMember caller now a name pk serial pv host port =>
      addMember s caller now a name pk serial pv host port
  | .removeMember caller a => removeMember s caller a
  | .updateMemberStatus caller now a active => updateMemberStatus s caller now a active
  | .updateMemberDetails caller now a name pk serial pv host port =>
      updateMemberDetails s caller now a name pk serial pv host port
  | .updateSubnetMemberDetail caller now a serial pv host port =>
      updateSubnetMemberDetail s caller now a serial pv host port
  | .transferManagerRole caller newManager => transferManagerRole s caller newManager

/-- Transaction semantics: a reverting call leaves the state unchanged. -/
def step (s : State) (op : Op) : State :=
  match exec s op with
  | .ok (s1, _) => s1
  | .error _ => s

/-- Run a sequence of transactions. -/
def run (s : State) (ops : List Op) : State := ops.foldl step s

/-- States reachable from deployment by some sequence of facade calls. -/
def Reachable (s : State) : Prop := ∃ deployer ops, run (init deployer) ops = s

/-- Audit event each operation is contracted to emit on success; for a
manager transfer the event records the manager being replaced. -/
def expectedEvent (s : State) : Op → Event
  | .addMember _ _ a name _ _ _ _ _ => .MemberAdded a name
  | .removeMember _ a => .MemberRemoved a
  | .updateMemberStatus _ _ a _ => .MemberUpdated a
  | .updateMemberDetails _ _ a _ _ _ _ _ _ => .MemberUpdated a
  | .updateSubnetMemberDetail _ _ a _ _ _ _ => .MemberUpdated a
  | .transferManagerRole _ newManager => .ManagerChanged s.manager newManager

/-- Every present identity occurs in the enumeration array. -/
def InvM (s : State) : Prop :=
  ∀ a, (s.members a).nodeAddress ≠ 0 → a ∈ s.memberAddresses

end NMMgr

namespace NMMgr

/-- Any operation whose caller is not the manager reverts with Unauthorized. -/
lemma exec_err_unauthorized (s : State) (op : Op) (h : op.caller ≠ s.manager) :
    exec s op = Except.error Err.Unauthorized := by
  cases op <;>
    simp only [exec, Op.caller, addMember, removeMember, updateMemberStatus,
      updateMemberDetails, updateSubnetMemberDetail, transferManagerRole] at h ⊢ <;>
    rw [if_neg h]

/-- A reverting call leaves the state unchanged. -/
lemma step_of_error (s : State) (op : Op) (e : Err) (h : exec s op = Except.error e) :
    step s op = s := by
  unfold step
  rw [h]

/-- An operation whose caller is the manager never reverts with Unauthorized. -/
lemma exec_ne_unauthorized (s : State) (op : Op) (h : op.caller = s.manager) :
    exec s op ≠ Except.error Err.Unauthorized := by
  cases op <;>
    simp only [exec, Op.caller, addMember, removeMember, updateMemberStatus,
      updateMemberDetails, updateSubnetMemberDetail, transferManagerRole] at h ⊢ <;>
    rw [if_pos h] <;>
    (repeat' split) <;> simp

/-- C2 — Authority exclusivity with atomicity on failure: every mutating
operation (add, remove, updateStatus, updateDetails, updateSubnetMemberDetail,
transferManagerRole) invoked by a caller other than the current manager fails
with Unauthorized, and the members mapping, the enumeration array, the member
counter and the manager are all exactly as before the call. -/
theorem C2_authority_exclusivity (s : State) (op : Op) (h : op.caller ≠ s.manager) :
    exec s op = Except.error Err.Unauthorized ∧ step s op = s :=
  ⟨exec_err_unauthorized s op h,
   step_of_error s op Err.Unauthorized (exec_err_unauthorized s op h)⟩

/-- Witness for C2 at a concrete non-manager caller. -/
theorem C2_authority_exclusivity_witness :
    exec (init 1) (Op.removeMember 2 3) = Except.error Err.Unauthorized ∧
      step (init 1) (Op.removeMember 2 3) = init 1 :=
  C2_authority_exclusivity (init 1) (Op.removeMember 2 3) (by decide)

/-- C6 — Authority transfer contract: transferManagerRole fails with
Unauthorized for a non-manager caller, fails with InvalidTarget for the zero
target, and otherwise installs the new manager and emits ManagerChanged; after
a transfer to a genuinely different principal, any mutating call by the old
manager fails Unauthorized while the same caller check passes for the new
manager (no operation of the new manager can fail Unauthorized). -/
theorem C6_transfer_authority (s : State) (caller newManager : Nat) :
    (caller ≠ s.manager →
      transferManagerRole s caller newManager = Except.error Err.Unauthorized) ∧
    (caller = s.manager → newManager = 0 →
      transferManagerRole s caller newManager = Except.error Err.InvalidTarget) ∧
    (caller = s.manager → newManager ≠ 0 →
      ∃ s1, transferManagerRole s caller newManager =
          Except.ok (s1, [Event.ManagerChanged caller newManager]) ∧
        s1.manager = newManager ∧ s1.members = s.members ∧
        s1.memberAddresses = s.memberAddresses ∧
        (newManager ≠ caller →
          (∀ op : Op, op.caller = caller → exec s1 op = Except.error Err.Unauthorized) ∧
          (∀ op : Op, op.caller = newManager →
            exec s1 op ≠ Except.error Err.Unauthorized))) := by
  refine ⟨?_, ?_, ?_⟩
  · intro h
    unfold transferManagerRole
    rw [if_neg h]
  · intro h h0
    unfold transferManagerRole
    rw [if_pos h, if_neg (by simp [h0])]
  · intro h h0
    refine ⟨⟨newManager, s.members, s.memberAddresses, s.memberCount⟩, ?_, rfl, rfl, rfl, ?_⟩
    · unfold transferManagerRole
      rw [if_pos h, if_pos h0, ← h]
    · intro hne
      constructor
      · intro op hop
        exact exec_err_unauthorized _ op (by rw [hop]; exact Ne.symm hne)
      · intro op hop
        exact exec_ne_unauthorized _ op (by rw [hop])

/-- Witness for C6 exercising all three branches at concrete inputs. -/
theorem C6_transfer_authority_witness :
    transferManagerRole (init 1) 2 3 = Except.error Err.Unauthorized ∧
    transferManagerRole (init 1) 1 0 = Except.error Err.InvalidTarget ∧
    ∃ s1, transferManagerRole (init 1) 1 2 =
        Except.ok (s1, [Event.ManagerChanged 1 2]) ∧
      s1.manager = 2 ∧ s1.members = (init 1).members ∧
      s1.memberAddresses = (init 1).memberAddresses ∧
      ((2 : Nat) ≠ 1 →
        (∀ op : Op, op.caller = 1 → exec s1 op = Except.error Err.Unauthorized) ∧
        (∀ op : Op, op.caller = 2 → exec s1 op ≠ Except.error Err.Unauthorized)) :=
  ⟨(C6_transfer_authority (init 1) 2 3).1 (by decide),
   (C6_transfer_authority (init 1) 1 0).2.1 rfl rfl,
   (C6_transfer_authority (init 1) 1 2).2.2 rfl (by decide)⟩

/-- C7 — Frame property of the network-detail-only update: for a present
identity, updateSubnetMemberDetail by the manager overwrites exactly serial,
platformVersion, host and port and refreshes lastUpdated, leaving the name,
key, address, joinedAt and active fields of that record, every other record,
the enumeration array, the manager and the counter unchanged; for an absent
identity it fails with NotFound. -/
theorem C7_network_detail_frame (s : State) (memberAddress now serial platformVersion : Nat)
    (host : String) (port : Nat) :
    ((s.members memberAddress).nodeAddress ≠ 0 →
      ∃ s1, updateSubnetMemberDetail s s.manager now memberAddress serial platformVersion host port =
          Except.ok (s1, [Event.MemberUpdated memberAddress]) ∧
        (s1.members memberAddress).serial = serial ∧
        (s1.members memberAddress).platformVersion = platformVersion ∧
        (s1.members memberAddress).host = host ∧
        (s1.members memberAddress).port = port ∧
        (s1.members memberAddress).lastUpdated = now ∧
        (s1.members memberAddress).x500Name = (s.members memberAddress).x500Name ∧
        (s1.members memberAddress).publicKey = (s.members memberAddress).publicKey ∧
        (s1.members memberAddress).nodeAddress = (s.members memberAddress).nodeAddress ∧
        (s1.members memberAddress).joinedAt = (s.members memberAddress).joinedAt ∧
        (s1.members memberAddress).isActive = (s.members memberAddress).isActive ∧
        (∀ b, b ≠ memberAddress → s1.members b = s.members b) ∧
        s1.memberAddresses = s.memberAddresses ∧
        s1.manager = s.manager ∧ s1.memberCount = s.memberCount) ∧
    ((s.members memberAddress).nodeAddress = 0 →
      updateSubnetMemberDetail s s.manager now memberAddress serial platformVersion host port =
        Except.error Err.NotFound) := by
  constructor
  · intro h
    refine ⟨⟨s.manager,
        fun a => if a = memberAddress then
            { s.members memberAddress with
              serial := serial, platformVersion := platformVersion,
              host := host, port := port, lastUpdated := now }
          else s.members a,
        s.memberAddresses, s.memberCount⟩,
      by unfold updateSubnetMemberDetail; rw [if_pos rfl, if_pos h],
      by simp, by simp, by simp, by simp, by simp,
      by simp, by simp, by simp, by simp, by simp,
      fun b hb => by simp [hb], rfl, rfl, rfl⟩
  · intro h
    unfold updateSubnetMemberDetail
    rw [if_pos rfl, if_neg (by simp [h])]

/-- Witness for C7 exercising both branches at concrete inputs. -/
theorem C7_network_detail_frame_witness :
    (∃ s1, updateSubnetMemberDetail (step (init 1) (Op.addMember 1 0 5 "n" [] 1 1 "h" 1))
          (step (init 1) (Op.addMember 1 0 5 "n" [] 1 1 "h" 1)).manager 3 5 2 2 "h2" 2 =
        Except.ok (s1, [Event.MemberUpdated 5]) ∧
      (s1.members 5).serial = 2 ∧
      (s1.members 5).platformVersion = 2 ∧
      (s1.members 5).host = "h2" ∧
      (s1.members 5).port = 2 ∧
      (s1.members 5).lastUpdated = 3 ∧
      (s1.members 5).x500Name =
        ((step (init 1) (Op.addMember 1 0 5 "n" [] 1 1 "h" 1)).members 5).x500Name ∧
      (s1.members 5).publicKey =
        ((step (init 1) (Op.addMember 1 0 5 "n" [] 1 1 "h" 1)).members 5).publicKey ∧
      (s1.members 5).nodeAddress =
        ((step (init 1) (Op.addMember 1 0 5 "n" [] 1 1 "h" 1)).members 5).nodeAddress ∧
      (s1.members 5).joinedAt =
        ((step (init 1) (Op.addMember 1 0 5 "n" [] 1 1 "h" 1)).members 5).joinedAt ∧
      (s1.members 5).isActive =
        ((step (init 1) (Op.addMember 1 0 5 "n" [] 1 1 "h" 1)).members 5).isActive ∧
      (∀ b, b ≠ 5 → s1.members b = (step (init 1) (Op.addMember 1 0 5 "n" [] 1 1 "h" 1)).members b) ∧
      s1.memberAddresses = (step (init 1) (Op.addMember 1 0 5 "n" [] 1 1 "h" 1)).memberAddresses ∧
      s1.manager = (step (init 1) (Op.addMember 1 0 5 "n" [] 1 1 "h" 1)).manager ∧
      s1.memberCount = (step (init 1) (Op.addMember 1 0 5 "n" [] 1 1 "h" 1)).memberCount) ∧
    updateSubnetMemberDetail (step (init 1) (Op.addMember 1 0 5 "n" [] 1 1 "h" 1))
        (step (init 1) (Op.addMember 1 0 5 "n" [] 1 1 "h" 1)).manager 3 9 2 2 "h2" 2 =
      Except.error Err.NotFound :=
  ⟨(C7_network_detail_frame (step (init 1) (Op.addMember 1 0 5 "n" [] 1 1 "h" 1))
      5 3 2 2 "h2" 2).1 (by decide),
   (C7_network_detail_frame (step (init 1) (Op.addMember 1 0 5 "n" [] 1 1 "h" 1))
      9 3 2 2 "h2" 2).2 (by decide)⟩

end NMMgr

namespace NMOwn

/-- Adding an absent identity succeeds and produces the expected state. -/
lemma addMember_of_absent (s : State) (now memberAddress : Nat) (x500Name : String)
    (publicKey : List Nat) (serial platformVersion : Nat) (host : String) (port : Nat)
    (hp : (s.members memberAddress).memberAddress = 0) :
    addMember s s.owner now memberAddress x500Name publicKey serial platformVersion host port =
      Except.ok (⟨s.owner,
        fun b => if b = memberAddress then
            ⟨x500Name, memberAddress, publicKey, true, now, now, serial, platformVersion, host, port⟩
          else s.members b,
        fun b => if b = memberAddress then s.memberAddresses.length else s.memberIndex b,
        s.memberAddresses ++ [memberAddress]⟩,
      [Event.MemberAdded memberAddress x500Name]) := by
  unfold addMember
  rw [if_pos rfl, if_pos hp]

/-- C4 (amended) — Add/get round-trip for a nonzero absent identity: a
successful add by the owner followed by get returns a record with active true,
joinedAt equal to lastUpdated (both the call time), identity field equal to
the key, and all supplied field values stored verbatim.  The claim as stated
fails for the zero identity (see the counterexample). -/
theorem C4_add_get_roundtrip (s : State) (memberAddress now : Nat) (x500Name : String)
    (publicKey : List Nat) (serial platformVersion : Nat) (host : String) (port : Nat)
    (h0 : memberAddress ≠ 0) (habs : isMember s memberAddress = false) :
    ∃ s1 evs,
      addMember s s.owner now memberAddress x500Name publicKey serial platformVersion host port =
        Except.ok (s1, evs) ∧
      getMember s1 memberAddress = Except.ok
        ⟨x500Name, memberAddress, publicKey, true, now, now, serial, platformVersion, host, port⟩ := by
  have hp : (s.members memberAddress).memberAddress = 0 := by
    simpa [isMember] using habs
  refine ⟨_, _, addMember_of_absent s now memberAddress x500Name publicKey serial
    platformVersion host port hp, ?_⟩
  unfold getMember
  simp [h0]

/-- Witness for C4 at a concrete nonzero identity. -/
theorem C4_add_get_roundtrip_witness :
    ∃ s1 evs,
      addMember (init 7) (init 7).owner 5 9 "CN=Node1" [4, 2] 1001 1 "h1" 30303 =
        Except.ok (s1, evs) ∧
      getMember s1 9 = Except.ok ⟨"CN=Node1", 9, [4, 2], true, 5, 5, 1001, 1, "h1", 30303⟩ :=
  C4_add_get_roundtrip (init 7) 9 5 "CN=Node1" [4, 2] 1001 1 "h1" 30303
    (by decide) (by decide)

/-- Counterexample to C4 as stated: the zero identity is absent, adding it
succeeds, yet get on it fails with NotFound instead of returning the stored
record. -/
theorem C4_add_get_roundtrip_cex :
    isMember (init 7) 0 = false ∧
    ∃ s1 evs, addMember (init 7) 7 5 0 "z" [] 1 1 "h" 1 = Except.ok (s1, evs) ∧
      getMember s1 0 = Except.error Err.NotFound :=
  ⟨rfl, _, _, rfl, rfl⟩

/-- C5 (amended) — Idempotence of failed add for a nonzero identity: from any
state, two successive adds of the same nonzero identity by the owner leave the
registry exactly as after the first add alone, and the second call fails with
AlreadyExists.  The claim as stated fails for the zero identity (see the
counterexample). -/
theorem C5_failed_add_idempotent (s : State) (memberAddress : Nat) (h0 : memberAddress ≠ 0)
    (t1 t2 : Nat) (n1 n2 : String) (p1 p2 : List Nat) (se1 se2 pv1 pv2 : Nat)
    (ho1 ho2 : String) (po1 po2 : Nat) :
    step (step s (Op.addMember s.owner t1 memberAddress n1 p1 se1 pv1 ho1 po1))
        (Op.addMember s.owner t2 memberAddress n2 p2 se2 pv2 ho2 po2) =
      step s (Op.addMember s.owner t1 memberAddress n1 p1 se1 pv1 ho1 po1) ∧
    exec (step s (Op.addMember s.owner t1 memberAddress n1 p1 se1 pv1 ho1 po1))
        (Op.addMember s.owner t2 memberAddress n2 p2 se2 pv2 ho2 po2) =
      Except.error Err.AlreadyExists := by
  by_cases hp : (s.members memberAddress).memberAddress = 0
  · have e1 : step s (Op.addMember s.owner t1 memberAddress n1 p1 se1 pv1 ho1 po1) =
        ⟨s.owner,
          fun b => if b = memberAddress then
              ⟨n1, memberAddress, p1, true, t1, t1, se1, pv1, ho1, po1⟩
            else s.members b,
          fun b => if b = memberAddress then s.memberAddresses.length else s.memberIndex b,
          s.memberAddresses ++ [memberAddress]⟩ := by
      unfold step
      rw [show exec s (Op.addMember s.owner t1 memberAddress n1 p1 se1 pv1 ho1 po1) =
        Except.ok _ from addMember_of_absent s t1 memberAddress n1 p1 se1 pv1 ho1 po1 hp]
    rw [e1]
    have e2 : exec (⟨s.owner,
          fun b => if b = memberAddress then
              ⟨n1, memberAddress, p1, true, t1, t1, se1, pv1, ho1, po1⟩
            else s.members b,
          fun b => if b = memberAddress then s.memberAddresses.length else s.memberIndex b,
          s.memberAddresses ++ [memberAddress]⟩ : State)
        (Op.addMember s.owner t2 memberAddress n2 p2 se2 pv2 ho2 po2) =
        Except.error Err.AlreadyExists := by
      simp [exec, addMember, h0]
    rw [e2]
    exact ⟨by unfold step; rw [e2], rfl⟩
  · have e1 : exec s (Op.addMember s.owner t1 memberAddress n1 p1 se1 pv1 ho1 po1) =
        Except.error Err.AlreadyExists := by
      simp [exec, addMember, hp]
    have h1 : step s (Op.addMember s.owner t1 memberAddress n1 p1 se1 pv1 ho1 po1) = s := by
      unfold step
      rw [e1]
    rw [h1]
    have e2 : exec s (Op.addMember s.owner t2 memberAddress n2 p2 se2 pv2 ho2 po2) =
        Except.error Err.AlreadyExists := by
      simp [exec, addMember, hp]
    exact ⟨by unfold step; rw [e2], e2⟩

/-- Witness for C5 at a concrete nonzero identity. -/
theorem C5_failed_add_idempotent_witness :
    step (step (init 7) (Op.addMember (init 7).owner 1 9 "a" [] 1 1 "h" 1))
        (Op.addMember (init 7).owner 2 9 "b" [2] 2 2 "h2" 2) =
      step (init 7) (Op.addMember (init 7).owner 1 9 "a" [] 1 1 "h" 1) ∧
    exec (step (init 7) (Op.addMember (init 7).owner 1 9 "a" [] 1 1 "h" 1))
        (Op.addMember (init 7).owner 2 9 "b" [2] 2 2 "h2" 2) =
      Except.error Err.AlreadyExists :=
  C5_failed_add_idempotent (init 7) 9 (by decide) 1 2 "a" "b" [] [2] 1 2 1 2 "h" "h2" 1 2

/-- Counterexample to C5 as stated: adding the zero identity twice succeeds
both times (the second call does not fail with AlreadyExists) and the second
call pushes a second copy of the zero identity onto the membership list. -/
theorem C5_failed_add_idempotent_cex :
    exec (step (init 7) (Op.addMember 7 0 0 "a" [] 0 0 "" 0))
        (Op.addMember 7 1 0 "b" [] 0 0 "" 0) ≠ Except.error Err.AlreadyExists ∧
    getAllMembers (step (step (init 7) (Op.addMember 7 0 0 "a" [] 0 0 "" 0))
        (Op.addMember 7 1 0 "b" [] 0 0 "" 0)) = [0, 0] ∧
    getAllMembers (step (init 7) (Op.addMember 7 0 0 "a" [] 0 0 "" 0)) = [0] := by
  refine ⟨?_, rfl, rfl⟩
  intro h
  have h2 : (exec (step (init 7) (Op.addMember 7 0 0 "a" [] 0 0 "" 0))
      (Op.addMember 7 1 0 "b" [] 0 0 "" 0)).isOk = true := rfl
  rw [h] at h2
  exact Bool.noConfusion h2

/-- C9 (amended) — Status update refreshes the timestamp: for a present
identity, a successful updateMemberStatus(identity, false) by the owner sets
active to false and sets lastUpdated to the call time, which is strictly
greater than the previous lastUpdated whenever time has strictly advanced
since the record's last mutation.  As stated (unconditional strict increase)
the claim fails when the update runs at the same block timestamp as the
previous mutation (see the counterexample). -/
theorem C9_update_status_timestamp (s : State) (memberAddress now : Nat)
    (hpres : (s.members memberAddress).memberAddress ≠ 0)
    (htime : (s.members memberAddress).lastUpdated < now) :
    ∃ s1 evs, updateMemberStatus s s.owner now memberAddress false = Except.ok (s1, evs) ∧
      (s1.members memberAddress).isActive = false ∧
      (s.members memberAddress).lastUpdated < (s1.members memberAddress).lastUpdated := by
  refine ⟨⟨s.owner,
      fun b => if b = memberAddress then
          { s.members memberAddress with isActive := false, lastUpdated := now }
        else s.members b,
      s.memberIndex, s.memberAddresses⟩,
    [Event.MemberUpdated memberAddress], ?_, by simp, by simpa using htime⟩
  unfold updateMemberStatus
  rw [if_pos rfl, if_pos hpres]

/-- Witness for C9: add at time 5, update at time 6. -/
theorem C9_update_status_timestamp_witness :
    ∃ s1 evs,
      updateMemberStatus (step (init 7) (Op.addMember 7 5 1 "a" [] 0 0 "" 0))
          (step (init 7) (Op.addMember 7 5 1 "a" [] 0 0 "" 0)).owner 6 1 false =
        Except.ok (s1, evs) ∧
      (s1.members 1).isActive = false ∧
      ((step (init 7) (Op.addMember 7 5 1 "a" [] 0 0 "" 0)).members 1).lastUpdated <
        (s1.members 1).lastUpdated :=
  C9_update_status_timestamp (step (init 7) (Op.addMember 7 5 1 "a" [] 0 0 "" 0)) 1 6
    (by decide) (by decide)

/-- Counterexample to C9 as stated: a record created at time 5 and
status-updated at time 5 keeps lastUpdated equal to 5, not strictly greater
than its previous value. -/
theorem C9_update_status_timestamp_cex :
    ((step (init 7) (Op.addMember 7 5 1 "a" [] 0 0 "" 0)).members 1).lastUpdated = 5 ∧
    ∃ s2 evs,
      updateMemberStatus (step (init 7) (Op.addMember 7 5 1 "a" [] 0 0 "" 0)) 7 5 1 false =
        Except.ok (s2, evs) ∧
      (s2.members 1).isActive = false ∧
      (s2.members 1).lastUpdated = 5 :=
  ⟨rfl, _, _, rfl, rfl, rfl⟩

/-- C3 (amended) — Swap-with-last removal correctness for nonzero identities:
after the owner adds three pairwise distinct nonzero identities A, B, C in
that order into the empty registry and then removes B, the removal succeeds
emitting MemberRemoved, list() returns exactly the two-element sequence
consisting of A then C (C moved into the slot of B), and B is no longer a
member while A and C still are.  As stated (arbitrary distinct identities)
the claim fails when B is the zero identity (see the counterexample). -/
theorem C3_swap_removal (d tA tB tC A B C : Nat) (nA nB nC : String) (pA pB pC : List Nat)
    (seA seB seC pvA pvB pvC : Nat) (hoA hoB hoC : String) (poA poB poC : Nat)
    (hAB : A ≠ B) (hAC : A ≠ C) (hBC : B ≠ C) (hA : A ≠ 0) (hB : B ≠ 0) (hC : C ≠ 0) :
    ∃ s4 evs,
      removeMember (run (init d) [Op.addMember d tA A nA pA seA pvA hoA poA,
          Op.addMember d tB B nB pB seB pvB hoB poB,
          Op.addMember d tC C nC pC seC pvC hoC poC]) d B = Except.ok (s4, evs) ∧
      evs = [Event.MemberRemoved B] ∧
      getAllMembers s4 = [A, C] ∧
      isMember s4 B = false ∧ isMember s4 A = true ∧ isMember s4 C = true := by
  have hBA : B ≠ A := Ne.symm hAB
  have hCA : C ≠ A := Ne.symm hAC
  have hCB : C ≠ B := Ne.symm hBC
  cases hrem : removeMember (run (init d) [Op.addMember d tA A nA pA seA pvA hoA poA,
      Op.addMember d tB B nB pB seB pvB hoB poB,
      Op.addMember d tC C nC pC seC pvC hoC poC]) d B with
  | error e =>
      exfalso
      simp [run, step, exec, addMember, removeMember, init, emptyMember,
        hAB, hAC, hBC, hBA, hCA, hCB, hA, hB, hC] at hrem
  | ok p =>
      obtain ⟨s4, evs⟩ := p
      simp [run, step, exec, addMember, removeMember, init, emptyMember,
        hAB, hAC, hBC, hBA, hCA, hCB, hA, hB, hC] at hrem
      obtain ⟨h4, hev⟩ := hrem
      refine ⟨s4, evs, rfl, ?_, ?_, ?_, ?_, ?_⟩
      · rw [← hev]
      · rw [← h4]
        rfl
      · rw [← h4]
        simp [isMember]
      · rw [← h4]
        simp [isMember, hAB, hAC, hA]
      · rw [← h4]
        simp [isMember, hCB, hCA, hC]

/-- Witness for C3 with identities 1, 2, 3. -/
theorem C3_swap_removal_witness :
    ∃ s4 evs,
      removeMember (run (init 7) [Op.addMember 7 1 1 "a" [] 0 0 "" 0,
          Op.addMember 7 2 2 "b" [] 0 0 "" 0,
          Op.addMember 7 3 3 "c" [] 0 0 "" 0]) 7 2 = Except.ok (s4, evs) ∧
      evs = [Event.MemberRemoved 2] ∧
      getAllMembers s4 = [1, 3] ∧
      isMember s4 2 = false ∧ isMember s4 1 = true ∧ isMember s4 3 = true :=
  C3_swap_removal 7 1 2 3 1 2 3 "a" "b" "c" [] [] [] 0 0 0 0 0 0 "" "" "" 0 0 0
    (by decide) (by decide) (by decide) (by decide) (by decide) (by decide)

/-- Counterexample to C3 as stated: with the three distinct identities 1, 0, 2
added in order (all three adds succeed, as the membership list shows), removing
the middle identity 0 fails with NotFound instead of yielding the list
consisting of 1 and 2. -/
theorem C3_swap_removal_cex :
    getAllMembers (run (init 7) [Op.addMember 7 1 1 "a" [] 0 0 "" 0,
        Op.addMember 7 2 0 "b" [] 0 0 "" 0,
        Op.addMember 7 3 2 "c" [] 0 0 "" 0]) = [1, 0, 2] ∧
    removeMember (run (init 7) [Op.addMember 7 1 1 "a" [] 0 0 "" 0,
        Op.addMember 7 2 0 "b" [] 0 0 "" 0,
        Op.addMember 7 3 2 "c" [] 0 0 "" 0]) 7 0 = Except.error Err.NotFound :=
  ⟨rfl, rfl⟩

/-- The stored record of the zero identity always carries a zero address
field: no successful operation can make it nonzero. -/
lemma exec_members_zero (s : State) (op : Op) (s1 : State) (evs : List Event)
    (hx : exec s op = Except.ok (s1, evs)) (h : (s.members 0).memberAddress = 0) :
    (s1.members 0).memberAddress = 0 := by
  cases op <;>
    simp only [exec, addMember, removeMember, updateMemberStatus, updateMemberDetails] at hx <;>
    (repeat' split at hx) <;>
    first
      | exact Except.noConfusion hx
      | (injection hx with h1
         injection h1 with h2 h3
         subst h2
         dsimp only
         split <;> simp_all [emptyMember])

/-- Transaction-level version of exec_members_zero. -/
lemma step_members_zero (s : State) (op : Op) (h : (s.members 0).memberAddress = 0) :
    ((step s op).members 0).memberAddress = 0 := by
  unfold step
  cases hx : exec s op with
  | error e => exact h
  | ok p => exact exec_members_zero s op p.1 p.2 (by rw [hx]) h

/-- In every reachable state the zero identity reads as absent. -/
lemma reachable_members_zero (s : State) (h : Reachable s) :
    (s.members 0).memberAddress = 0 := by
  obtain ⟨d, ops, rfl⟩ := h
  suffices H : ∀ t : State, (t.members 0).memberAddress = 0 →
      ((run t ops).members 0).memberAddress = 0 from H (init d) rfl
  induction ops with
  | nil => exact fun t ht => ht
  | cons op ops ih => exact fun t ht => ih (step t op) (step_members_zero t op ht)

/-- C10 — Zero-identity edge case: adding the zero identity from the empty
registry succeeds and emits MemberAdded (the absence check passes because
absence is a zero address field), yet afterwards isMember on zero is false,
getMember on zero fails NotFound, removeMember on zero fails NotFound, and the
membership list contains the zero identity; moreover in every reachable state
removing the zero identity fails, so once added it can never be removed. -/
theorem C10_zero_identity (d t : Nat) (x500Name : String) (publicKey : List Nat)
    (serial platformVersion : Nat) (host : String) (port : Nat) :
    ∃ s1, addMember (init d) d t 0 x500Name publicKey serial platformVersion host port =
        Except.ok (s1, [Event.MemberAdded 0 x500Name]) ∧
      isMember s1 0 = false ∧
      getMember s1 0 = Except.error Err.NotFound ∧
      0 ∈ getAllMembers s1 ∧
      removeMember s1 d 0 = Except.error Err.NotFound ∧
      ∀ s c, Reachable s → ∃ e, removeMember s c 0 = Except.error e := by
  refine ⟨_,
    addMember_of_absent (init d) t 0 x500Name publicKey serial platformVersion host port rfl,
    ?_, ?_, ?_, ?_, ?_⟩
  · simp [isMember, init, emptyMember]
  · simp [getMember, init, emptyMember]
  · simp [getAllMembers, init]
  · simp [removeMember, init, emptyMember]
  · intro s c hs
    have hz := reachable_members_zero s hs
    by_cases hc : c = s.owner
    · exact ⟨Err.NotFound, by unfold removeMember; rw [if_pos hc, if_neg (by simp [hz])]⟩
    · exact ⟨Err.Unauthorized, by unfold removeMember; rw [if_neg hc]⟩

/-- Witness for C10 at concrete inputs. -/
theorem C10_zero_identity_witness :
    ∃ s1, addMember (init 7) 7 5 0 "z" [2] 1 1 "h" 1 =
        Except.ok (s1, [Event.MemberAdded 0 "z"]) ∧
      isMember s1 0 = false ∧
      getMember s1 0 = Except.error Err.NotFound ∧
      0 ∈ getAllMembers s1 ∧
      removeMember s1 7 0 = Except.error Err.NotFound ∧
      ∀ s c, Reachable s → ∃ e, removeMember s c 0 = Except.error e :=
  C10_zero_identity 7 5 "z" [2] 1 1 "h" 1

/-- The initial state satisfies the index-consistency invariant. -/
lemma inv_init (d : Nat) : Inv (init d) := by
  refine ⟨List.nodup_nil, ?_, ?_, ?_⟩ <;> simp [init, emptyMember]

/-- Inserting a fresh nonzero identity preserves the invariant. -/
lemma inv_insert (s : State) (now a : Nat) (nm : String) (pk : List Nat) (se pv : Nat)
    (ho : String) (po : Nat) (ha : a ≠ 0)
    (hp : (s.members a).memberAddress = 0) (h : Inv s) :
    Inv ⟨s.owner,
      fun b => if b = a then ⟨nm, a, pk, true, now, now, se, pv, ho, po⟩ else s.members b,
      fun b => if b = a then s.memberAddresses.length else s.memberIndex b,
      s.memberAddresses ++ [a]⟩ := by
  obtain ⟨hnd, hmem, hfield, hidx⟩ := h
  have hnotin : a ∉ s.memberAddresses := fun hin => ((hmem a).mpr hin) hp
  refine ⟨?_, ?_, ?_, ?_⟩
  · simp [List.nodup_append, hnd, hnotin]
  · intro b
    dsimp only
    by_cases hb : b = a
    · subst hb
      simp [ha]
    · simpa [hb] using hmem b
  · intro b hb
    dsimp only at hb ⊢
    rcases List.mem_append.mp hb with hbl | hba
    · have hba2 : b ≠ a := fun e => hnotin (e ▸ hbl)
      simp only [if_neg hba2]
      exact hfield b hbl
    · have hba2 : b = a := by simpa using hba
      subst hba2
      simp
  · intro b hb
    dsimp only at hb ⊢
    rcases List.mem_append.mp hb with hbl | hba
    · have hba2 : b ≠ a := fun e => hnotin (e ▸ hbl)
      simp only [if_neg hba2]
      have hsome := hidx b hbl
      obtain ⟨hlt, _⟩ := List.getElem?_eq_some_iff.mp hsome
      rw [List.getElem?_append_left hlt]
      exact hsome
    · have hba2 : b = a := by simpa using hba
      subst hba2
      simp only [if_pos rfl]
      exact List.getElem?_concat_length _ _

/-- Removing a present identity by swap-with-last preserves the invariant. -/
lemma inv_remove_core (s : State) (a : Nat)
    (hp : (s.members a).memberAddress ≠ 0) (h : Inv s) :
    Inv ⟨s.owner,
      fun b => if b = a then emptyMember else s.members b,
      fun b => if b = a then 0
               else if b = (s.memberAddresses[s.memberAddresses.length - 1]?).getD 0 then
                 s.memberIndex a
               else s.memberIndex b,
      (s.memberAddresses.set (s.memberIndex a)
        ((s.memberAddresses[s.memberAddresses.length - 1]?).getD 0)).dropLast⟩ := by
  obtain ⟨hnd, hmem, hfield, hidx⟩ := h
  set l := s.memberAddresses with hl
  set n := l.length with hn
  set i := s.memberIndex a with hi
  set last := (l[n - 1]?).getD 0 with hlast
  have F0 : a ∈ l := (hmem a).mp hp
  have F2 : l[i]? = some a := hidx a F0
  obtain ⟨F3, _⟩ := List.getElem?_eq_some_iff.mp F2
  have F4 : 0 < n := Nat.lt_of_le_of_lt (Nat.zero_le i) F3
  have hn1 : n - 1 < n := Nat.sub_lt F4 Nat.one_pos
  have F5 : l[n - 1]? = some last := by
    rw [hlast, List.getElem?_eq_getElem hn1]
    rfl
  have F6 : last ∈ l := List.mem_iff_getElem?.mpr ⟨n - 1, F5⟩
  have inj : ∀ j k, j < n → k < n → l[j]? = l[k]? → j = k := by
    intro j k hj hk he
    by_contra hne
    rcases Nat.lt_or_ge j k with hlt | hge
    · exact List.nodup_iff_getElem?_ne_getElem?.mp hnd j k hlt hk he
    · exact List.nodup_iff_getElem?_ne_getElem?.mp hnd k j
        (Nat.lt_of_le_of_ne hge fun e => hne e.symm) hj he.symm
  set l2 := (l.set i last).dropLast with hl2
  have hlen2 : l2.length = n - 1 := by
    rw [hl2, List.length_dropLast, List.length_set]
  have hgetlt : ∀ j, j < n - 1 → j ≠ i → l2[j]? = l[j]? := by
    intro j hj hji
    rw [hl2, List.getElem?_dropLast, List.length_set, if_pos hj,
      List.getElem?_set_ne (Ne.symm hji)]
  have hgeti : i < n - 1 → l2[i]? = some last := by
    intro hin
    rw [hl2, List.getElem?_dropLast, List.length_set, if_pos hin,
      List.getElem?_set_self F3]
  have hgetge : ∀ j, n - 1 ≤ j → l2[j]? = none := by
    intro j hj
    rw [hl2, List.getElem?_dropLast, List.length_set, if_neg (by omega)]
  have hia : i = n - 1 → a = last := by
    intro e
    have h2 : l[n - 1]? = some a := e ▸ F2
    rw [F5] at h2
    exact (Option.some_inj.mp h2).symm
  have hai : a = last → i = n - 1 := by
    intro e
    apply inj i (n - 1) F3 hn1
    rw [F2, F5, e]
  have hmem2 : ∀ b, b ∈ l2 ↔ (b ∈ l ∧ b ≠ a) := by
    intro b
    constructor
    · intro hb
      obtain ⟨j, hj⟩ := List.mem_iff_getElem?.mp hb
      have hjlt : j < n - 1 := by
        by_contra hge
        rw [hgetge j (Nat.le_of_not_lt hge)] at hj
        exact Option.noConfusion hj
      by_cases hji : j = i
      · subst hji
        rw [hgeti hjlt] at hj
        have hb2 : b = last := (Option.some_inj.mp hj).symm
        subst hb2
        refine ⟨F6, fun e => ?_⟩
        have := hai e.symm
        omega
      · rw [hgetlt j hjlt hji] at hj
        refine ⟨List.mem_iff_getElem?.mpr ⟨j, hj⟩, fun e => ?_⟩
        subst e
        exact hji (inj j i (by omega) F3 (by rw [hj, F2]))
    · rintro ⟨hb, hba⟩
      obtain ⟨j, hj⟩ := List.mem_iff_getElem?.mp hb
      have hjn : j < n := (List.getElem?_eq_some_iff.mp hj).1
      have hji : j ≠ i := fun e => hba (by rw [e, F2] at hj; exact (Option.some_inj.mp hj).symm)
      by_cases hjn1 : j = n - 1
      · have hbl : b = last := by
          rw [hjn1, F5] at hj
          exact (Option.some_inj.mp hj).symm
        have hi2 : i ≠ n - 1 := fun e => hba (hbl.trans (hia e).symm)
        have hi3 : i < n - 1 := by omega
        exact List.mem_iff_getElem?.mpr ⟨i, by rw [hgeti hi3, hbl]⟩
      · have hjlt : j < n - 1 := by omega
        exact List.mem_iff_getElem?.mpr ⟨j, by rw [hgetlt j hjlt hji]; exact hj⟩
  have hnd2 : l2.Nodup := by
    rw [List.nodup_iff_getElem?_ne_getElem?]
    intro j k hjk hk
    rw [hlen2] at hk
    have hj : j < n - 1 := Nat.lt_trans hjk hk
    by_cases hji : j = i
    · subst hji
      rw [hgeti hj]
      have hki : k ≠ i := by omega
      rw [hgetlt k hk hki]
      intro he
      have h2 : l[k]? = l[n - 1]? := by rw [F5, ← he]
      have := inj k (n - 1) (by omega) hn1 h2
      omega
    · rw [hgetlt j hj hji]
      by_cases hki : k = i
      · subst hki
        rw [hgeti hk]
        intro he
        have h2 : l[j]? = l[n - 1]? := by rw [F5]; exact he
        have := inj j (n - 1) (by omega) hn1 h2
        omega
      · rw [hgetlt k hk hki]
        exact List.nodup_iff_getElem?_ne_getElem?.mp hnd j k hjk (by omega)
  refine ⟨hnd2, ?_, ?_, ?_⟩
  · intro b
    dsimp only
    by_cases hb : b = a
    · subst hb
      simp [emptyMember, hmem2]
    · rw [if_neg hb, hmem2 b]
      constructor
      · intro hz
        exact ⟨(hmem b).mp hz, hb⟩
      · rintro ⟨h1, _⟩
        exact (hmem b).mpr h1
  · intro b hb
    dsimp only at hb ⊢
    obtain ⟨hbl, hba⟩ := (hmem2 b).mp hb
    rw [if_neg hba]
    exact hfield b hbl
  · intro b hb
    dsimp only at hb ⊢
    obtain ⟨hbl, hba⟩ := (hmem2 b).mp hb
    rw [if_neg hba]
    by_cases hblast : b = last
    · rw [if_pos hblast]
      have hi2 : i ≠ n - 1 := fun e => hba (hblast.trans (hia e).symm)
      have hi3 : i < n - 1 := by omega
      rw [hgeti hi3, hblast]
    · rw [if_neg hblast]
      have hsome := hidx b hbl
      obtain ⟨hjn, _⟩ := List.getElem?_eq_some_iff.mp hsome
      have hji : s.memberIndex b ≠ i := fun e => hba
        (by rw [e, F2] at hsome; exact (Option.some_inj.mp hsome).symm)
      have hjn1 : s.memberIndex b ≠ n - 1 := fun e => hblast
        (by rw [e, F5] at hsome; exact (Option.some_inj.mp hsome).symm)
      have hjlt : s.memberIndex b < n - 1 := by omega
      rw [hgetlt _ hjlt hji]
      exact hsome

/-- A state change that keeps the array, the index map and every address
field preserves the invariant. -/
lemma inv_same_members_field (s s1 : State)
    (hl : s1.memberAddresses = s.memberAddresses)
    (hi : s1.memberIndex = s.memberIndex)
    (hm : ∀ b, (s1.members b).memberAddress = (s.members b).memberAddress)
    (h : Inv s) : Inv s1 := by
  obtain ⟨hnd, hmem, hfield, hidx⟩ := h
  refine ⟨?_, ?_, ?_, ?_⟩
  · rw [hl]
    exact hnd
  · intro b
    rw [hm b, hl]
    exact hmem b
  · intro b hb
    rw [hl] at hb
    rw [hm b]
    exact hfield b hb
  · intro b hb
    rw [hl] at hb
    rw [hl, hi]
    exact hidx b hb

/-- Every transaction whose operation never inserts the zero identity
preserves the invariant. -/
lemma inv_step (s : State) (op : Op) (hop : op.nonzeroAdd) (h : Inv s) : Inv (step s op) := by
  cases op with
  | addMember caller now a nm pk se pv ho po =>
      by_cases hc : caller = s.owner
      · by_cases hpz : (s.members a).memberAddress = 0
        · have hx : step s (Op.addMember caller now a nm pk se pv ho po) =
              ⟨s.owner,
                fun b => if b = a then ⟨nm, a, pk, true, now, now, se, pv, ho, po⟩
                  else s.members b,
                fun b => if b = a then s.memberAddresses.length else s.memberIndex b,
                s.memberAddresses ++ [a]⟩ := by
            unfold step
            simp only [exec]
            subst hc
            rw [addMember_of_absent s now a nm pk se pv ho po hpz]
          rw [hx]
          exact inv_insert s now a nm pk se pv ho po hop hpz h
        · have hx : step s (Op.addMember caller now a nm pk se pv ho po) = s := by
            unfold step
            simp only [exec, addMember]
            rw [if_pos hc, if_neg hpz]
          rw [hx]
          exact h
      · have hx : step s (Op.addMember caller now a nm pk se pv ho po) = s := by
          unfold step
          simp only [exec, addMember]
          rw [if_neg hc]
        rw [hx]
        exact h
  | removeMember caller a =>
      by_cases hc : caller = s.owner
      · by_cases hpz : (s.members a).memberAddress ≠ 0
        · have F0 : a ∈ s.memberAddresses := (h.2.1 a).mp hpz
          have F2 := h.2.2.2 a F0
          obtain ⟨F3, _⟩ := List.getElem?_eq_some_iff.mp F2
          have Fne : ¬s.memberAddresses.length = 0 := by omega
          have hx : step s (Op.removeMember caller a) =
              ⟨s.owner,
                fun b => if b = a then emptyMember else s.members b,
                fun b => if b = a then 0
                  else if b = (s.memberAddresses[s.memberAddresses.length - 1]?).getD 0 then
                    s.memberIndex a
                  else s.memberIndex b,
                (s.memberAddresses.set (s.memberIndex a)
                  ((s.memberAddresses[s.memberAddresses.length - 1]?).getD 0)).dropLast⟩ := by
            unfold step
            simp only [exec, removeMember]
            rw [if_pos hc, if_pos hpz, if_neg Fne, if_pos F3]
          rw [hx]
          exact inv_remove_core s a hpz h
        · have hx : step s (Op.removeMember caller a) = s := by
            unfold step
            simp only [exec, removeMember]
            rw [if_pos hc, if_neg hpz]
          rw [hx]
          exact h
      · have hx : step s (Op.removeMember caller a) = s := by
          unfold step
          simp only [exec, removeMember]
          rw [if_neg hc]
        rw [hx]
        exact h
  | updateMemberStatus caller now a active =>
      by_cases hc : caller = s.owner
      · by_cases hpz : (s.members a).memberAddress ≠ 0
        · have hx : step s (Op.updateMemberStatus caller now a active) =
              ⟨s.owner,
                fun b => if b = a then
                    { s.members a with isActive := active, lastUpdated := now }
                  else s.members b,
                s.memberIndex, s.memberAddresses⟩ := by
            unfold step
            simp only [exec, updateMemberStatus]
            rw [if_pos hc, if_pos hpz]
          rw [hx]
          refine inv_same_members_field s _ rfl rfl ?_ h
          intro b
          dsimp only
          split <;> simp_all
        · have hx : step s (Op.updateMemberStatus caller now a active) = s := by
            unfold step
            simp only [exec, updateMemberStatus]
            rw [if_pos hc, if_neg hpz]
          rw [hx]
          exact h
      · have hx : step s (Op.updateMemberStatus caller now a active) = s := by
          unfold step
          simp only [exec, updateMemberStatus]
          rw [if_neg hc]
        rw [hx]
        exact h
  | updateMemberDetails caller now a nm pk se pv ho po =>
      by_cases hc : caller = s.owner
      · by_cases hpz : (s.members a).memberAddress ≠ 0
        · have hx : step s (Op.updateMemberDetails caller now a nm pk se pv ho po) =
              ⟨s.owner,
                fun b => if b = a then
                    { s.members a with
                      x500Name := nm, publicKey := pk, serial := se,
                      platformVersion := pv, host := ho, port := po, lastUpdated := now }
                  else s.members b,
                s.memberIndex, s.memberAddresses⟩ := by
            unfold step
            simp only [exec, updateMemberDetails]
            rw [if_pos hc, if_pos hpz]
          rw [hx]
          refine inv_same_members_field s _ rfl rfl ?_ h
          intro b
          dsimp only
          split <;> simp_all
        · have hx : step s (Op.updateMemberDetails caller now a nm pk se pv ho po) = s := by
            unfold step
            simp only [exec, updateMemberDetails]
            rw [if_pos hc, if_neg hpz]
          rw [hx]
          exact h
      · have hx : step s (Op.updateMemberDetails caller now a nm pk se pv ho po) = s := by
          unfold step
          simp only [exec, updateMemberDetails]
          rw [if_neg hc]
        rw [hx]
        exact h

/-- The invariant holds after any run of nonzero-identity operations. -/
lemma inv_run_aux (ops : List Op) :
    ∀ t : State, Inv t → (∀ op ∈ ops, op.nonzeroAdd) → Inv (run t ops) := by
  induction ops with
  | nil => exact fun t ht _ => ht
  | cons op ops ih =>
      intro t ht hops
      exact ih (step t op) (inv_step t op (hops op (by simp)) ht)
        fun o ho => hops o (by simp [ho])

/-- C1 (amended) — Index consistency invariant: in every state reachable by
facade operations that never add the zero (sentinel) identity, getAllMembers
returns exactly the set of identities for which isMember is true, contains no
duplicates, each listed identity's stored record carries that identity in its
address field, and each member's reverse-map position points at the array slot
holding exactly that identity.  As stated (over all facade operations) the
claim fails once the zero identity is added (see the counterexample). -/
theorem C1_index_consistency (deployer : Nat) (ops : List Op)
    (hops : ∀ op ∈ ops, op.nonzeroAdd) :
    (∀ a, isMember (run (init deployer) ops) a = true ↔
      a ∈ getAllMembers (run (init deployer) ops)) ∧
    (getAllMembers (run (init deployer) ops)).Nodup ∧
    (∀ a ∈ getAllMembers (run (init deployer) ops),
      ((run (init deployer) ops).members a).memberAddress = a) ∧
    (∀ a, isMember (run (init deployer) ops) a = true →
      (getAllMembers (run (init deployer) ops))[(run (init deployer) ops).memberIndex a]? =
        some a) := by
  obtain ⟨hnd, hmem, hfield, hidx⟩ := inv_run_aux ops (init deployer) (inv_init deployer) hops
  refine ⟨?_, hnd, hfield, ?_⟩
  · intro a
    simpa [isMember, getAllMembers] using hmem a
  · intro a ha
    exact hidx a ((hmem a).mp (by simpa [isMember] using ha))

/-- Witness for C1 after one concrete nonzero add. -/
theorem C1_index_consistency_witness :
    (∀ a, isMember (run (init 7) [Op.addMember 7 0 5 "n" [] 1 1 "h" 1]) a = true ↔
      a ∈ getAllMembers (run (init 7) [Op.addMember 7 0 5 "n" [] 1 1 "h" 1])) ∧
    (getAllMembers (run (init 7) [Op.addMember 7 0 5 "n" [] 1 1 "h" 1])).Nodup ∧
    (∀ a ∈ getAllMembers (run (init 7) [Op.addMember 7 0 5 "n" [] 1 1 "h" 1]),
      ((run (init 7) [Op.addMember 7 0 5 "n" [] 1 1 "h" 1]).members a).memberAddress = a) ∧
    (∀ a, isMember (run (init 7) [Op.addMember 7 0 5 "n" [] 1 1 "h" 1]) a = true →
      (getAllMembers (run (init 7) [Op.addMember 7 0 5 "n" [] 1 1 "h" 1]))[
        (run (init 7) [Op.addMember 7 0 5 "n" [] 1 1 "h" 1]).memberIndex a]? = some a) :=
  C1_index_consistency 7 [Op.addMember 7 0 5 "n" [] 1 1 "h" 1]
    (by
      intro op hop
      simp only [List.mem_singleton] at hop
      subst hop
      show (5 : Nat) ≠ 0
      decide)

/-- Counterexample to C1 as stated: after the facade operation that adds the
zero identity, the membership list contains an identity for which isMember is
false. -/
theorem C1_index_consistency_cex :
    0 ∈ getAllMembers (run (init 7) [Op.addMember 7 5 0 "z" [] 1 1 "h" 1]) ∧
    isMember (run (init 7) [Op.addMember 7 5 0 "z" [] 1 1 "h" 1]) 0 = false := by
  refine ⟨?_, rfl⟩
  show (0 : Nat) ∈ [0]
  simp

end NMOwn

namespace NMMgr

/-- Membership survives swap-with-last removal of a different element. -/
lemma mem_swapRemove (l : List Nat) (idx b : Nat) (hidx : idx < l.length)
    (hb : b ∈ l) (hne : l[idx]? ≠ some b) :
    b ∈ (l.set idx ((l[l.length - 1]?).getD 0)).dropLast := by
  obtain ⟨j, hj⟩ := List.mem_iff_getElem?.mp hb
  have hjn : j < l.length := (List.getElem?_eq_some_iff.mp hj).1
  have hji : j ≠ idx := fun e => hne (e ▸ hj)
  have hn1 : l.length - 1 < l.length := by omega
  have hlast : l[l.length - 1]? = some ((l[l.length - 1]?).getD 0) := by
    rw [List.getElem?_eq_getElem hn1]
    rfl
  rcases Nat.lt_or_ge j (l.length - 1) with hjlt | hjge
  · apply List.mem_iff_getElem?.mpr
    refine ⟨j, ?_⟩
    rw [List.getElem?_dropLast, List.length_set, if_pos hjlt,
      List.getElem?_set_ne (Ne.symm hji)]
    exact hj
  · have hj1 : j = l.length - 1 := by omega
    have hbl : l[l.length - 1]? = some b := hj1 ▸ hj
    rw [hlast] at hbl
    have hidx1 : idx ≠ l.length - 1 := fun e => hji (hj1.trans e.symm)
    have hidxlt : idx < l.length - 1 := by omega
    apply List.mem_iff_getElem?.mpr
    refine ⟨idx, ?_⟩
    rw [List.getElem?_dropLast, List.length_set, if_pos hidxlt,
      List.getElem?_set_self hidx]
    exact hbl

/-- The initial state satisfies the presence-in-array invariant. -/
lemma invM_init (d : Nat) : InvM (init d) := by
  intro a ha
  simp [init, emptyMember] at ha

/-- Every successful operation preserves the presence-in-array invariant. -/
lemma invM_exec (s : State) (op : Op) (s1 : State) (evs : List Event)
    (hx : exec s op = Except.ok (s1, evs)) (h : InvM s) : InvM s1 := by
  cases op with
  | addMember caller now a nm pk se pv ho po =>
      simp only [exec, addMember] at hx
      by_cases hc : caller = s.manager
      · rw [if_pos hc] at hx
        by_cases hp : (s.members a).nodeAddress = 0
        · rw [if_pos hp] at hx
          injection hx with h1
          injection h1 with h2 h3
          subst h2
          intro b hb
          dsimp only at hb ⊢
          by_cases hba : b = a
          · subst hba
            simp
          · rw [if_neg hba] at hb
            simp only [List.mem_append]
            exact Or.inl (h b hb)
        · rw [if_neg hp] at hx
          exact Except.noConfusion hx
      · rw [if_neg hc] at hx
        exact Except.noConfusion hx
  | removeMember caller a =>
      simp only [exec, removeMember] at hx
      by_cases hc : caller = s.manager
      · rw [if_pos hc] at hx
        by_cases hp : (s.members a).nodeAddress ≠ 0
        · rw [if_pos hp] at hx
          cases hfind : s.memberAddresses.findIdx? (fun x => x == a) with
          | none =>
              exfalso
              have ha : a ∈ s.memberAddresses := h a hp
              have h2 := List.findIdx?_eq_none_iff.mp hfind a ha
              simp at h2
          | some index =>
              simp only [hfind] at hx
              by_cases hcount : s.memberCount = 0
              · rw [if_pos hcount] at hx
                exact Except.noConfusion hx
              · rw [if_neg hcount] at hx
                injection hx with h1
                injection h1 with h2 h3
                subst h2
                obtain ⟨hlt, hpa, _⟩ := List.findIdx?_eq_some_iff_getElem.mp hfind
                have hpa2 : s.memberAddresses[index]? = some a := by
                  rw [List.getElem?_eq_getElem hlt]
                  simpa using hpa
                intro b hb
                dsimp only at hb ⊢
                by_cases hba : b = a
                · subst hba
                  rw [if_pos rfl] at hb
                  simp [emptyMember] at hb
                · rw [if_neg hba] at hb
                  exact mem_swapRemove s.memberAddresses index b hlt (h b hb)
                    (by rw [hpa2]; exact fun e => hba (Option.some_inj.mp e).symm)
        · rw [if_neg hp] at hx
          exact Except.noConfusion hx
      · rw [if_neg hc] at hx
        exact Except.noConfusion hx
  | updateMemberStatus caller now a active =>
      simp only [exec, updateMemberStatus] at hx
      by_cases hc : caller = s.manager
      · rw [if_pos hc] at hx
        by_cases hp : (s.members a).nodeAddress ≠ 0
        · rw [if_pos hp] at hx
          injection hx with h1
          injection h1 with h2 h3
          subst h2
          intro b hb
          dsimp only at hb ⊢
          by_cases hba : b = a
          · subst hba
            exact h _ hp
          · rw [if_neg hba] at hb
            exact h b hb
        · rw [if_neg hp] at hx
          exact Except.noConfusion hx
      · rw [if_neg hc] at hx
        exact Except.noConfusion hx
  | updateMemberDetails caller now a nm pk se pv ho po =>
      simp only [exec, updateMemberDetails] at hx
      by_cases hc : caller = s.manager
      · rw [if_pos hc] at hx
        by_cases hp : (s.members a).nodeAddress ≠ 0
        · rw [if_pos hp] at hx
          injection hx with h1
          injection h1 with h2 h3
          subst h2
          intro b hb
          dsimp only at hb ⊢
          by_cases hba : b = a
          · subst hba
            exact h _ hp
          · rw [if_neg hba] at hb
            exact h b hb
        · rw [if_neg hp] at hx
          exact Except.noConfusion hx
      · rw [if_neg hc] at hx
        exact Except.noConfusion hx
  | updateSubnetMemberDetail caller now a se pv ho po =>
      simp only [exec, updateSubnetMemberDetail] at hx
      by_cases hc : caller = s.manager
      · rw [if_pos hc] at hx
        by_cases hp : (s.members a).nodeAddress ≠ 0
        · rw [if_pos hp] at hx
          injection hx with h1
          injection h1 with h2 h3
          subst h2
          intro b hb
          dsimp only at hb ⊢
          by_cases hba : b = a
          · subst hba
            exact h _ hp
          · rw [if_neg hba] at hb
            exact h b hb
        · rw [if_neg hp] at hx
          exact Except.noConfusion hx
      · rw [if_neg hc] at hx
        exact Except.noConfusion hx
  | transferManagerRole caller newManager =>
      simp only [exec, transferManagerRole] at hx
      by_cases hc : caller = s.manager
      · rw [if_pos hc] at hx
        by_cases hm : newManager ≠ 0
        · rw [if_pos hm] at hx
          injection hx with h1
          injection h1 with h2 h3
          subst h2
          exact h
        · rw [if_neg hm] at hx
          exact Except.noConfusion hx
      · rw [if_neg hc] at hx
        exact Except.noConfusion hx

/-- Transaction-level version of invM_exec. -/
lemma invM_step (s : State) (op : Op) (h : InvM s) : InvM (step s op) := by
  unfold step
  cases hx : exec s op with
  | error e => exact h
  | ok p => exact invM_exec s op p.1 p.2 (by rw [hx]) h

/-- Every reachable state satisfies the presence-in-array invariant. -/
lemma invM_reachable (s : State) (h : Reachable s) : InvM s := by
  obtain ⟨d, ops, rfl⟩ := h
  suffices H : ∀ t : State, InvM t → InvM (run t ops) from H (init d) (invM_init d)
  induction ops with
  | nil => exact fun t ht => ht
  | cons op ops ih => exact fun t ht => ih (step t op) (invM_step t op ht)

/-- C8 — Audit events exactly once: in any reachable state, every successful
mutating operation emits exactly the one audit event of its contracted kind
(MemberAdded with the distinguished name for add, MemberRemoved for remove,
MemberUpdated for each of the three updates, ManagerChanged for the authority
transfer), and a call that fails with any error kind emits no event at all. -/
theorem C8_audit_events (s : State) (op : Op) (hs : Reachable s) :
    (∀ s1 evs, exec s op = Except.ok (s1, evs) → evs = [expectedEvent s op]) ∧
    (∀ e, exec s op = Except.error e → eventsOf (exec s op) = []) := by
  constructor
  · intro s1 evs hx
    have hInv : InvM s := invM_reachable s hs
    cases op with
    | addMember caller now a nm pk se pv ho po =>
        simp only [exec, addMember] at hx
        by_cases hc : caller = s.manager
        · rw [if_pos hc] at hx
          by_cases hp : (s.members a).nodeAddress = 0
          · rw [if_pos hp] at hx
            injection hx with h1
            injection h1 with h2 h3
            subst h3
            rfl
          · rw [if_neg hp] at hx
            exact Except.noConfusion hx
        · rw [if_neg hc] at hx
          exact Except.noConfusion hx
    | removeMember caller a =>
        simp only [exec, removeMember] at hx
        by_cases hc : caller = s.manager
        · rw [if_pos hc] at hx
          by_cases hp : (s.members a).nodeAddress ≠ 0
          · rw [if_pos hp] at hx
            cases hfind : s.memberAddresses.findIdx? (fun x => x == a) with
            | none =>
                exfalso
                have ha : a ∈ s.memberAddresses := hInv a hp
                have h2 := List.findIdx?_eq_none_iff.mp hfind a ha
                simp at h2
            | some index =>
                simp only [hfind] at hx
                by_cases hcount : s.memberCount = 0
                · rw [if_pos hcount] at hx
                  exact Except.noConfusion hx
                · rw [if_neg hcount] at hx
                  injection hx with h1
                  injection h1 with h2 h3
                  subst h3
                  rfl
          · rw [if_neg hp] at hx
            exact Except.noConfusion hx
        · rw [if_neg hc] at hx
          exact Except.noConfusion hx
    | updateMemberStatus caller now a active =>
        simp only [exec, updateMemberStatus] at hx
        by_cases hc : caller = s.manager
        · rw [if_pos hc] at hx
          by_cases hp : (s.members a).nodeAddress ≠ 0
          · rw [if_pos hp] at hx
            injection hx with h1
            injection h1 with h2 h3
            subst h3
            rfl
          · rw [if_neg hp] at hx
            exact Except.noConfusion hx
        · rw [if_neg hc] at hx
          exact Except.noConfusion hx
    | updateMemberDetails caller now a nm pk se pv ho po =>
        simp only [exec, updateMemberDetails] at hx
        by_cases hc : caller = s.manager
        · rw [if_pos hc] at hx
          by_cases hp : (s.members a).nodeAddress ≠ 0
          · rw [if_pos hp] at hx
            injection hx with h1
            injection h1 with h2 h3
            subst h3
            rfl
          · rw [if_neg hp] at hx
            exact Except.noConfusion hx
        · rw [if_neg hc] at hx
          exact Except.noConfusion hx
    | updateSubnetMemberDetail caller now a se pv ho po =>
        simp only [exec, updateSubnetMemberDetail] at hx
        by_cases hc : caller = s.manager
        · rw [if_pos hc] at hx
          by_cases hp : (s.members a).nodeAddress ≠ 0
          · rw [if_pos hp] at hx
            injection hx with h1
            injection h1 with h2 h3
            subst h3
            rfl
          · rw [if_neg hp] at hx
            exact Except.noConfusion hx
        · rw [if_neg hc] at hx
          exact Except.noConfusion hx
    | transferManagerRole caller newManager =>
        simp only [exec, transferManagerRole] at hx
        by_cases hc : caller = s.manager
        · rw [if_pos hc] at hx
          by_cases hm : newManager ≠ 0
          · rw [if_pos hm] at hx
            injection hx with h1
            injection h1 with h2 h3
            subst h3
            rfl
          · rw [if_neg hm] at hx
            exact Except.noConfusion hx
        · rw [if_neg hc] at hx
          exact Except.noConfusion hx
  · intro e hx
    rw [hx]
    rfl

/-- Witness for C8 at the deployment state with a concrete add. -/
theorem C8_audit_events_witness :
    (∀ s1 evs, exec (init 1) (Op.addMember 1 0 5 "n" [] 1 1 "h" 1) = Except.ok (s1, evs) →
      evs = [expectedEvent (init 1) (Op.addMember 1 0 5 "n" [] 1 1 "h" 1)]) ∧
    (∀ e, exec (init 1) (Op.addMember 1 0 5 "n" [] 1 1 "h" 1) = Except.error e →
      eventsOf (exec (init 1) (Op.addMember 1 0 5 "n" [] 1 1 "h" 1)) = []) :=
  C8_audit_events (init 1) (Op.addMember 1 0 5 "n" [] 1 1 "h" 1) ⟨1, [], rfl⟩

end NMMgr

end SubnetRegistry
